import Mathlib

set_option maxRecDepth 100000

/-!
# Verification of the Duplicate Block Extraction and Refactoring Engine

A shallow embedding of `src/php_refactor.py` (class `PHPRefactor`), the
duplicate-block extraction and refactoring engine, together with theorems
settling the frozen claims about it.

Modelling conventions:

* Python `str` values are modelled as `List Char` (all inputs considered
  are ASCII, so `encode()` is the identity on code points and one character
  is one byte).
* The file system is modelled as an association list from path to content,
  listed in `os.walk` order (files of the working root first, then files of
  the `includes` subdirectory, which is created after the root's own files).
  Writing a file updates the entry in place, or appends a new entry.
* Python floats appear only as the similarity ratio `2*M/T`, the literal
  thresholds `0.9`/`0.8`/`0.7`/`1.5` and the products/comparisons built from
  them; all are modelled exactly in `ℚ` (the concrete comparisons decided in
  this file are far from any float-rounding boundary).
* `difflib.SequenceMatcher(None, a, b).ratio()` is embedded in full,
  including the `autojunk` purge of popular elements; `isjunk` is `None` in
  the source, so `bjunk = ∅` and the two junk-extension loops of
  `find_longest_match` never fire (their guard `isbjunk(...)` is `False`);
  they are therefore omitted.
* `hashlib.md5(...).hexdigest()` is embedded in full (`md5hex`).
* Loops whose termination is by a data-dependent measure are written with an
  explicit fuel argument so that every definition reduces in the kernel; the
  fuel passed by each wrapper is a loop variant that provably dominates the
  number of iterations the Python loop performs (each iteration strictly
  consumes input), so the fuelled function computes the same value as the
  unbounded loop.
* `BeautifulSoup`-dependent steps cannot be embedded as executable string
  functions.  The embedding therefore covers file contents on which the
  structural passes of `_extract_potential_blocks` produce no blocks and
  `str(soup)` is the identity — contents consisting of PHP
  processing-instruction blocks, self-closed `<link .../>` elements and
  markup-free text, which contain no `<script`, `<nav`, `<div`, `<header`,
  `<footer`, `<head` or `<meta` markup, so every `soup.find*` call of lines
  64–170 returns nothing.  Inside `apply_includes` the four
  `BeautifulSoup`-dependent matchers (structural match for
  navigation/header/footer, script match, meta-tag extraction, navigation
  container match) are parameters of the model (`Oracles`), exactly in the
  spirit of the spec's §9 "ordered list of pure functions
  `(occurrence, current_file_text) -> Option<replacement_span>`"; all
  remaining control flow, including every write and counter update, is
  translated from the source.  Blocks of type `php_code` never consult any
  oracle: every tier that would is gated on a block type other than
  `php_code` or is a no-op for it (lines 433–497 have no `php_code` branch).
-/

/-- Python `str` modelled as a list of characters. -/
abbrev Str := List Char

/-- Shorthand turning a Lean string literal into the `List Char` model. -/
def lc (s : String) : Str := s.data

/-- The apostrophe character (written numerically to keep literals plain). -/
def sqChar : Char := Char.ofNat 39

/-- Python `\s` on ASCII input: space, tab, newline, CR, FF, VT. -/
def isWS (c : Char) : Bool :=
  c == ' ' || c == '\t' || c == '\n' || c == '\r' || c == Char.ofNat 11 || c == Char.ofNat 12

/-- Python `sub in s` (substring containment, `str.__contains__`). -/
def occursIn (p c : Str) : Bool :=
  (List.range (c.length + 1)).any fun i => p.isPrefixOf (c.drop i)

/-- Python `s.find(sub)`: index of the leftmost occurrence, `none` if absent
(the source only ever compares the result with `-1` or uses it as a position,
so `Option Nat` is a faithful rendering of the `-1` convention). -/
def findSub : Str → Str → Option Nat
  | c, p =>
    if p.isPrefixOf c then some 0
    else
      match c with
      | [] => none
      | _ :: c' => (findSub c' p).map (· + 1)

/-- Python `s.find(sub, start)`. -/
def findSubFrom (c p : Str) (start : Nat) : Option Nat :=
  (findSub (c.drop start) p).map (· + start)

/-- One step of Python `str.replace`: fuelled scan replacing every
leftmost-first non-overlapping occurrence of `p` by `r`.  Python's
`str.replace` replaces **all** occurrences.  The fuel dominates the number of
occurrences (each consumes at least one character of `c`, `p ≠ []` in every
use site). -/
def pyReplaceAllF (r p : Str) : Nat → Str → Str
  | 0, c => c
  | fuel + 1, c =>
    match findSub c p with
    | none => c
    | some i => c.take i ++ r ++ pyReplaceAllF r p fuel (c.drop (i + p.length))

/-- Python `c.replace(p, r)` (for the nonempty patterns the source uses). -/
def pyReplaceAll (c p r : Str) : Str := pyReplaceAllF r p (c.length + 1) c

/-- Python `re.sub(r"\s+", " ", s)`: collapse every whitespace run to a
single space. -/
def normWS : Str → Str
  | [] => []
  | c :: rest =>
    let r := normWS rest
    if isWS c then
      match r with
      | ' ' :: _ => r
      | _ => ' ' :: r
    else c :: r

/-- Python `s.rstrip()`. -/
def rstripWS (s : Str) : Str := (s.reverse.dropWhile isWS).reverse

/-- Python `s.lower()` (ASCII). -/
def lowerStr (s : Str) : Str := s.map Char.toLower

/-- Python `os.path.basename` for slash-separated paths. -/
def basename (p : Str) : Str := (p.reverse.takeWhile (· != '/')).reverse

/-- Python `s.endswith(suf)`. -/
def endsWith (suf s : Str) : Bool := suf.isSuffixOf s

/-- Leading-whitespace run length. -/
def countLeadWS (s : Str) : Nat := (s.takeWhile isWS).length

/-- Lookup in an association list (Python `dict[k]` / `dict.get`). -/
def lookupD (m : List (Str × Str)) (k : Str) (d : Str) : Str :=
  match m.find? (fun e => e.1 == k) with
  | some e => e.2
  | none => d

/-- In-place update of an association list entry, appending when the key is
new (a file write: overwrite if present, create otherwise). -/
def updateAssoc (m : List (Str × Str)) (k v : Str) : List (Str × Str) :=
  match m with
  | [] => [(k, v)]
  | e :: rest => if e.1 == k then (k, v) :: rest else e :: updateAssoc rest k v

/-! ## MD5 (`hashlib.md5(content.encode()).hexdigest()`)

A complete embedding of MD5 over ASCII input (each character is one byte).
Only determinism, the 32-hex-character output shape and concrete
equality/inequality of digests matter to the claims, but the function is the
real MD5. -/

/-- The 64 MD5 sine-derived constants `⌊|sin(i+1)|·2³²⌋`. -/
def md5K : List Nat :=
  [3614090360, 3905402710, 606105819, 3250441966, 4118548399, 1200080426,
   2821735955, 4249261313, 1770035416, 2336552879, 4294925233, 2304563134,
   1804603682, 4254626195, 2792965006, 1236535329, 4129170786, 3225465664,
   643717713, 3921069994, 3593408605, 38016083, 3634488961, 3889429448,
   568446438, 3275163606, 4107603335, 1163531501, 2850285829, 4243563512,
   1735328473, 2368359562, 4294588738, 2272392833, 1839030562, 4259657740,
   2763975236, 1272893353, 4139469664, 3200236656, 681279174, 3936430074,
   3572445317, 76029189, 3654602809, 3873151461, 530742520, 3299628645,
   4096336452, 1126891415, 2878612391, 4237533241, 1700485571, 2399980690,
   4293915773, 2240044497, 1873313359, 4264355552, 2734768916, 1309151649,
   4149444226, 3174756917, 718787259, 3951481745]

/-- The 64 MD5 per-round left-rotation amounts. -/
def md5S : List Nat :=
  [7, 12, 17, 22, 7, 12, 17, 22, 7, 12, 17, 22, 7, 12, 17, 22,
   5, 9, 14, 20, 5, 9, 14, 20, 5, 9, 14, 20, 5, 9, 14, 20,
   4, 11, 16, 23, 4, 11, 16, 23, 4, 11, 16, 23, 4, 11, 16, 23,
   6, 10, 15, 21, 6, 10, 15, 21, 6, 10, 15, 21, 6, 10, 15, 21]

/-- 32-bit truncation. -/
def m32 (n : Nat) : Nat := n % 4294967296

/-- 32-bit bitwise complement. -/
def not32 (n : Nat) : Nat := 4294967295 - m32 n

/-- 32-bit left rotation. -/
def rotl32 (x s : Nat) : Nat := m32 (x * 2 ^ s) + (m32 x) / 2 ^ (32 - s)

/-- MD5 padding: `0x80`, zeros to 56 mod 64, then the 64-bit little-endian
bit length. -/
def md5Pad (msg : List Nat) : List Nat :=
  let n := msg.length
  let padLen := (55 + 64 - n % 64) % 64 + 1
  let bitLen := n * 8
  msg ++ (128 :: List.replicate (padLen - 1) 0) ++
    ((List.range 8).map fun i => bitLen / 2 ^ (8 * i) % 256)

/-- Little-endian 32-bit words of a 64-byte chunk. -/
def md5Words (chunk : List Nat) : List Nat :=
  (List.range 16).map fun i =>
    chunk.getD (4 * i) 0 + chunk.getD (4 * i + 1) 0 * 256 +
      chunk.getD (4 * i + 2) 0 * 65536 + chunk.getD (4 * i + 3) 0 * 16777216

/-- One MD5 operation (step `i` of the 64). -/
def md5Step (w : List Nat) (st : Nat × Nat × Nat × Nat) (i : Nat) :
    Nat × Nat × Nat × Nat :=
  let (a, b, c, d) := st
  let f :=
    if i < 16 then (b &&& c) ||| (not32 b &&& d)
    else if i < 32 then (d &&& b) ||| (not32 d &&& c)
    else if i < 48 then b ^^^ c ^^^ d
    else c ^^^ (b ||| not32 d)
  let g :=
    if i < 16 then i
    else if i < 32 then (5 * i + 1) % 16
    else if i < 48 then (3 * i + 5) % 16
    else 7 * i % 16
  let fv := m32 (f + a + md5K.getD i 0 + w.getD g 0)
  (d, m32 (b + rotl32 fv (md5S.getD i 0)), b, c)

/-- Process one 64-byte chunk. -/
def md5Chunk (st : Nat × Nat × Nat × Nat) (chunk : List Nat) :
    Nat × Nat × Nat × Nat :=
  let w := md5Words chunk
  let (a, b, c, d) := (List.range 64).foldl (md5Step w) st
  (m32 (st.1 + a), m32 (st.2.1 + b), m32 (st.2.2.1 + c), m32 (st.2.2.2 + d))

/-- Split into successive 64-byte chunks (fuel: the list length dominates the
number of chunks). -/
def chunks64 : Nat → List Nat → List (List Nat)
  | 0, _ => []
  | _, [] => []
  | fuel + 1, l => l.take 64 :: chunks64 fuel (l.drop 64)

/-- Lowercase hex digit. -/
def hexDigit (n : Nat) : Char :=
  if n < 10 then Char.ofNat (48 + n) else Char.ofNat (87 + n)

/-- A 32-bit word as 8 hex characters, little-endian byte order as in an MD5
digest. -/
def wordHexLE (x : Nat) : Str :=
  (List.range 4).flatMap fun i =>
    let byte := x / 2 ^ (8 * i) % 256
    [hexDigit (byte / 16), hexDigit (byte % 16)]

/-- `hashlib.md5(s.encode()).hexdigest()` for ASCII `s`. -/
def md5hex (s : Str) : Str :=
  let msg := md5Pad (s.map Char.toNat)
  let (a, b, c, d) :=
    (chunks64 (msg.length + 1) msg).foldl md5Chunk
      (1732584193, 4023233417, 2562383102, 271733878)
  wordHexLE a ++ wordHexLE b ++ wordHexLE c ++ wordHexLE d

/-! ## `difflib.SequenceMatcher(None, a, b).ratio()` — the Similarity Scorer

Embedding of `SequenceMatcher.__chain_b`, `find_longest_match` (with
`isjunk=None`, hence `bjunk = ∅`), `get_matching_blocks` and `ratio` from
CPython's `difflib`.  `ratio` only needs the **sum** of matched-block sizes,
which is unaffected by `get_matching_blocks`' final sorting and
adjacent-block merging, so the embedding computes that sum directly over the
same recursion tree as the queue loop. -/

/-- Append index `i` to `c`'s entry of the `b2j` dictionary under
construction (`b2j.setdefault(elt, []).append(i)`), keeping each index list
ascending. -/
def b2jAdd (m : List (Char × List Nat)) (c : Char) (i : Nat) :
    List (Char × List Nat) :=
  match m with
  | [] => [(c, [i])]
  | e :: rest => if e.1 == c then (c, e.2 ++ [i]) :: rest else e :: b2jAdd rest c i

/-- The `for i, elt in enumerate(b)` loop of `__chain_b`. -/
def b2jBuild : List (Char × List Nat) → Nat → Str → List (Char × List Nat)
  | m, _, [] => m
  | m, i, c :: rest => b2jBuild (b2jAdd m c i) (i + 1) rest

/-- `__chain_b` with `isjunk = None`: build `b2j`, then (autojunk, which is
on by default) purge the elements occurring more than `len(b) // 100 + 1`
times when `len(b) >= 200`.  Built once per `ratio()` evaluation, as in the
source. -/
def b2jTable (b : Str) : List (Char × List Nat) :=
  let m := b2jBuild [] 0 b
  if 200 ≤ b.length then
    m.filter fun e => decide (e.2.length ≤ b.length / 100 + 1)
  else m

/-- `b2j.get(c, [])`. -/
def b2jGet (m : List (Char × List Nat)) (c : Char) : List Nat :=
  match m.find? (fun e => e.1 == c) with
  | some e => e.2
  | none => []

/-- `j2len.get(j, 0)` on the previous iteration's dictionary. -/
def lookupNat (m : List (Nat × Nat)) (k : Nat) : Nat :=
  match m.find? (fun e => e.1 == k) with
  | some e => e.2
  | none => 0

/-- The running `besti, bestj, bestsize` of `find_longest_match`. -/
structure FLMBest where
  besti : Nat
  bestj : Nat
  bestsize : Nat
deriving DecidableEq

/-- `a[i] == b[j]` with both indices in range. -/
def chEq (a : Str) (i : Nat) (b : Str) (j : Nat) : Bool :=
  match a.get? i, b.get? j with
  | some x, some y => x == y
  | _, _ => false

/-- The inner `for j in b2j.get(a[i], [])` loop: builds `newj2len` and updates
the best triple.  `k = j2len.get(j-1, 0) + 1`, where a Python key `-1` (when
`j = 0`) is never present, hence the `j = 0` special case. -/
def flmInner (i : Nat) (j2lenOld : List (Nat × Nat)) :
    List Nat → List (Nat × Nat) → FLMBest → List (Nat × Nat) × FLMBest
  | [], nj, st => (nj, st)
  | j :: js, nj, st =>
    let k := (if j = 0 then 0 else lookupNat j2lenOld (j - 1)) + 1
    let st' := if st.bestsize < k then ⟨i + 1 - k, j + 1 - k, k⟩ else st
    flmInner i j2lenOld js ((j, k) :: nj) st'

/-- The outer `for i in range(alo, ahi)` loop of `find_longest_match`.  The
`j < blo` `continue` / `j >= bhi` `break` on the ascending index list is the
filter applied here. -/
def flmOuter (a : Str) (b2j : List (Char × List Nat)) (blo bhi : Nat) :
    List Nat → List (Nat × Nat) → FLMBest → FLMBest
  | [], _, st => st
  | i :: is, j2len, st =>
    let js := (b2jGet b2j (a.getD i ' ')).filter fun j =>
      decide (blo ≤ j) && decide (j < bhi)
    let (nj, st') := flmInner i j2len js [] st
    flmOuter a b2j blo bhi is nj st'

/-- The first extension loop: grow the best match backwards over equal
elements (`bjunk = ∅`, so `not isbjunk(...)` is always true).  The fuel
`st.besti` dominates the iteration count since `besti` strictly decreases and
stays above `alo`. -/
def extendBack (a b : Str) (alo blo : Nat) : Nat → FLMBest → FLMBest
  | 0, st => st
  | fuel + 1, st =>
    if decide (alo < st.besti) && decide (blo < st.bestj) &&
        chEq a (st.besti - 1) b (st.bestj - 1) then
      extendBack a b alo blo fuel ⟨st.besti - 1, st.bestj - 1, st.bestsize + 1⟩
    else st

/-- The second extension loop: grow the best match forwards over equal
elements.  The fuel `ahi` dominates the iteration count since
`besti + bestsize` strictly increases and stays below `ahi`. -/
def extendFwd (a b : Str) (ahi bhi : Nat) : Nat → FLMBest → FLMBest
  | 0, st => st
  | fuel + 1, st =>
    if decide (st.besti + st.bestsize < ahi) && decide (st.bestj + st.bestsize < bhi) &&
        chEq a (st.besti + st.bestsize) b (st.bestj + st.bestsize) then
      extendFwd a b ahi bhi fuel ⟨st.besti, st.bestj, st.bestsize + 1⟩
    else st

/-- `find_longest_match(alo, ahi, blo, bhi)`.  The two junk-extension loops
of the source never fire (`bjunk = ∅`) and are omitted. -/
def findLongestMatch (a b : Str) (b2j : List (Char × List Nat))
    (alo ahi blo bhi : Nat) : FLMBest :=
  let st := flmOuter a b2j blo bhi (List.range' alo (ahi - alo)) [] ⟨alo, blo, 0⟩
  let st := extendBack a b alo blo st.besti st
  extendFwd a b ahi bhi ahi st

/-- The sum of `bestsize` over the recursion tree of `get_matching_blocks`'
queue loop (the order in which the queue processes the sub-ranges does not
affect the sum).  Each recursive call strictly decreases
`(ahi - alo) + (bhi - blo)`, so the fuel `la + lb + 1` passed by `pyMatches`
dominates the recursion depth. -/
def matchingSumF (a b : Str) (b2j : List (Char × List Nat)) :
    Nat → Nat → Nat → Nat → Nat → Nat
  | 0, _, _, _, _ => 0
  | fuel + 1, alo, ahi, blo, bhi =>
    let m := findLongestMatch a b b2j alo ahi blo bhi
    if m.bestsize = 0 then 0
    else
      m.bestsize +
        (if alo < m.besti ∧ blo < m.bestj then
          matchingSumF a b b2j fuel alo m.besti blo m.bestj
        else 0) +
        (if m.besti + m.bestsize < ahi ∧ m.bestj + m.bestsize < bhi then
          matchingSumF a b b2j fuel (m.besti + m.bestsize) ahi (m.bestj + m.bestsize) bhi
        else 0)

/-- `sum(triple[-1] for triple in self.get_matching_blocks())`. -/
def pyMatches (a b : Str) : Nat :=
  matchingSumF a b (b2jTable b) (a.length + b.length + 1) 0 a.length 0 b.length

/-- `SequenceMatcher(None, a, b).ratio()`, via `_calculate_ratio`: `1.0` on
two empty sequences, else `2.0 * matches / (len(a) + len(b))`, exactly in
`ℚ`. -/
def pyRatio (a b : Str) : ℚ :=
  if a.length + b.length = 0 then 1
  else 2 * (pyMatches a b : ℚ) / ((a.length : ℚ) + (b.length : ℚ))

/-- The source's comparison `similarity >= threshold` for a threshold given
as the exact fraction `tn / td`, cross-multiplied into `Nat` arithmetic:
`tn/td ≤ 2·M/T  ↔  tn·T ≤ 2·M·td` (with the `_calculate_ratio` convention
`ratio = 1` when `T = 0`).  This is the same predicate as
`(tn : ℚ)/td ≤ pyRatio a b` (see `ratioGe_iff`), kept in `Nat` form so that
it evaluates inside the kernel. -/
def ratioGe (a b : Str) (tn td : Nat) : Bool :=
  let T := a.length + b.length
  if T = 0 then decide (tn ≤ td)
  else decide (tn * T ≤ 2 * pyMatches a b * td)

/-! ## Block extraction (`_extract_potential_blocks`)

The structural `BeautifulSoup` passes (script / navigation / header / footer
elements, head-section link and meta grouping, lines 64–170) emit blocks only
for content containing the corresponding markup; on the content class covered
by this development (PHP processing-instruction blocks, self-closed
`<link .../>` elements, markup-free text) they emit nothing and
`str(soup) = content`.  What remains — and is embedded here in full — are the
three raw-text scans of lines 172–208:

1. the fixed CSS-link literal pattern
   `<link\s+href="/css/style\.css"[^>]*>\s*...\s*<link\s+href="/images/favicon\.ico"[^>]*>`
   (appended **without** a `min_block_size` check);
2. the consecutive-link-run pattern `(<link[^>]+>\s*){3,}` (checked);
3. the PHP-delimiter pattern `<\?php\s+(.+?)\s+\?>` with `re.DOTALL`
   (the inner group checked, the emitted content is `f"<?php {block} ?>"`).

Each regex here is deterministic (every quantifier is followed by a literal
that cannot overlap with it), so the matchers below are straightforward
parsers; scanning emulates `re.finditer`/`re.findall`: try each position left
to right, continue after the end of a match. -/

/-- A block as produced by `_extract_potential_blocks` (`type`, `content`,
`hash` dictionary). -/
structure RawBlock where
  type : Str
  content : Str
  hash : Str
deriving DecidableEq

/-- A block after `identify_common_blocks` attaches the owning file
(`block['file'] = file_path`). -/
structure Block where
  type : Str
  content : Str
  hash : Str
  file : Str
deriving DecidableEq

/-- Match `<link\s+href="H"[^>]*>` at the head of `s`; returns the matched
length. -/
def matchLinkLit (href : Str) (s : Str) : Option Nat :=
  if (lc "<link").isPrefixOf s then
    let s1 := s.drop 5
    let w := countLeadWS s1
    if w = 0 then none
    else
      let lit := lc "href=\"" ++ href ++ ['"']
      let s2 := s1.drop w
      if lit.isPrefixOf s2 then
        let s3 := s2.drop lit.length
        let t := s3.takeWhile (· != '>')
        match s3.drop t.length with
        | '>' :: _ => some (5 + w + lit.length + t.length + 1)
        | _ => none
      else none
  else none

/-- The four href literals of the fixed CSS pattern (line 177). -/
def cssHrefs : List Str :=
  [lc "/css/style.css", lc "/css/responsive.css",
   lc "/css/fotorama.dev.css", lc "/images/favicon.ico"]

/-- Match the fixed CSS pattern at the head of `s`: the four link literals
separated by `\s*`. -/
def matchCssUnits : List Str → Str → Option Nat
  | [], _ => some 0
  | h :: hs, s =>
    match matchLinkLit h s with
    | none => none
    | some n =>
      match hs with
      | [] => some n
      | _ =>
        let w := countLeadWS (s.drop n)
        (matchCssUnits hs (s.drop (n + w))).map (· + n + w)

/-- `re.finditer` scan for the fixed CSS pattern: all matched substrings,
left to right, non-overlapping. -/
def scanCss : Nat → Str → List Str
  | 0, _ => []
  | fuel + 1, s =>
    match s with
    | [] => []
    | _ :: rest =>
      match matchCssUnits cssHrefs s with
      | some n => s.take n :: scanCss fuel (s.drop n)
      | none => scanCss fuel rest

/-- Lines 176–184: every match of the fixed CSS pattern is emitted as a
`css_links` block — with **no** `min_block_size` check. -/
def cssPatternBlocks (content : Str) : List RawBlock :=
  (scanCss (content.length + 1) content).map fun m =>
    ⟨lc "css_links", m, md5hex m⟩

/-- Match one `<link[^>]+>\s*` unit at the head of `s`; returns the matched
length (with the trailing whitespace). -/
def matchLinkUnit (s : Str) : Option Nat :=
  if (lc "<link").isPrefixOf s then
    let s1 := s.drop 5
    let t := s1.takeWhile (· != '>')
    if t.length = 0 then none
    else
      match s1.drop t.length with
      | '>' :: rest2 => some (5 + t.length + 1 + countLeadWS rest2)
      | _ => none
  else none

/-- Greedily match consecutive `<link[^>]+>\s*` units; returns
`(count, total length)`. -/
def matchLinkRun : Nat → Str → Nat × Nat
  | 0, _ => (0, 0)
  | fuel + 1, s =>
    match matchLinkUnit s with
    | none => (0, 0)
    | some n =>
      let (c, l) := matchLinkRun fuel (s.drop n)
      (c + 1, n + l)

/-- `re.finditer` scan for `(<link[^>]+>\s*){3,}`. -/
def scanLinkRun : Nat → Str → List Str
  | 0, _ => []
  | fuel + 1, s =>
    match s with
    | [] => []
    | _ :: rest =>
      let (c, n) := matchLinkRun s.length s
      if 3 ≤ c then s.take n :: scanLinkRun fuel (s.drop n)
      else scanLinkRun fuel rest

/-- Lines 186–195: link-run matches of at least `min_block_size` characters
are emitted as `link_group` blocks. -/
def linkGroupBlocks (minSize : Nat) (content : Str) : List RawBlock :=
  (scanLinkRun (content.length + 1) content).filterMap fun m =>
    if minSize ≤ m.length then some ⟨lc "link_group", m, md5hex m⟩ else none

/-- For the PHP pattern `<\?php\s+(.+?)\s+\?>`: the lazy group ending at
offset `g` succeeds when a whitespace run of length `r ≥ 1` followed by `?>`
starts right after it; since `?` is not whitespace, `r` is exactly the
leading whitespace run.  Returns the least such `g ≥ 1` with its `r`. -/
def findPhpGroup (s : Str) : Option (Nat × Nat) :=
  (List.range' 1 s.length).findSome? fun g =>
    let after := s.drop g
    let r := countLeadWS after
    if decide (1 ≤ r) && (lc "?>").isPrefixOf (after.drop r) then some (g, r)
    else none

/-- `re.findall(r'<\?php\s+(.+?)\s+\?>', content, re.DOTALL)`: the captured
groups, scanning left to right, continuing after each full match.  (The
greedy `\s+` after `<?php` takes the whole whitespace run; a shorter run
would only move whitespace into the start of the lazy group, which changes
nothing on the inputs considered here, whose groups start with
non-whitespace.) -/
def scanPhp : Nat → Str → List Str
  | 0, _ => []
  | fuel + 1, s =>
    match s with
    | [] => []
    | _ :: rest =>
      if (lc "<?php").isPrefixOf s then
        let s1 := s.drop 5
        let w := countLeadWS s1
        if 1 ≤ w then
          match findPhpGroup (s1.drop w) with
          | some (g, r2) =>
            (s1.drop w).take g :: scanPhp fuel (s.drop (5 + w + g + r2 + 2))
          | none => scanPhp fuel rest
        else scanPhp fuel rest
      else scanPhp fuel rest

/-- Lines 200–208: PHP groups of at least `min_block_size` characters are
emitted as `php_code` blocks; the content is rebuilt as `<?php {group} ?>`
with single spaces and the hash is the MD5 of the **group**. -/
def phpBlocks (minSize : Nat) (content : Str) : List RawBlock :=
  (scanPhp (content.length + 1) content).filterMap fun g =>
    if minSize ≤ g.length then
      some ⟨lc "php_code", lc "<?php " ++ g ++ lc " ?>", md5hex g⟩
    else none

/-- `_extract_potential_blocks` on the content class covered here (see the
section comment): the structural passes contribute nothing, leaving the three
raw-text scans in source order. -/
def extract_potential_blocks (minSize : Nat) (content : Str) : List RawBlock :=
  cssPatternBlocks content ++ linkGroupBlocks minSize content ++
    phpBlocks minSize content

/-! ## Cluster builder (`identify_common_blocks`, lines 212–251) -/

/-- The inner `for block2 in all_blocks[i+1:]` scan (lines 233–242): skip a
candidate whose hash is already processed **or whose file equals the seed's
file**; otherwise score it against the seed and, at or above the threshold,
add it to the cluster and mark its hash processed.  Returns the added members
and the updated processed set. -/
def scanCandidates (seed : Block) (tn td : Nat) :
    List Block → List Str → List Block × List Str
  | [], processed => ([], processed)
  | b :: rest, processed =>
    if processed.contains b.hash || seed.file == b.file then
      scanCandidates seed tn td rest processed
    else if ratioGe seed.content b.content tn td then
      let s := scanCandidates seed tn td rest (b.hash :: processed)
      (b :: s.1, s.2)
    else scanCandidates seed tn td rest processed

/-- `f"{block1['type']}_{len(self.common_blocks)}"`. -/
def clusterId (type : Str) (n : Nat) : Str := type ++ ['_'] ++ lc (toString n)

/-- The outer `for i, block1 in enumerate(all_blocks)` loop (lines 228–248).
A retained cluster also records the seed's hash; a discarded cluster keeps
the hashes its scan already added (the source never removes them), and its
seed is dropped without being recorded. -/
def identifyLoop (tn td minOcc : Nat) :
    List Block → List Str → Nat → List (Str × List Block)
  | [], _, _ => []
  | b :: rest, processed, nclusters =>
    if processed.contains b.hash then identifyLoop tn td minOcc rest processed nclusters
    else
      let s := scanCandidates b tn td rest processed
      let cluster := b :: s.1
      if minOcc ≤ cluster.length then
        (clusterId b.type nclusters, cluster) ::
          identifyLoop tn td minOcc rest (b.hash :: s.2) (nclusters + 1)
      else identifyLoop tn td minOcc rest s.2 nclusters

/-- Lines 219–224: extract every file's blocks and attach the owning file. -/
def allBlocks (minSize : Nat) (files : List (Str × Str)) : List Block :=
  files.flatMap fun e =>
    (extract_potential_blocks minSize e.2).map fun rb =>
      ⟨rb.type, rb.content, rb.hash, e.1⟩

/-- `identify_common_blocks` over an already-assembled block list: the
mapping cluster-id → members, in insertion order. -/
def identify_common_blocks (tn td minOcc : Nat) (blocks : List Block) :
    List (Str × List Block) :=
  identifyLoop tn td minOcc blocks [] 0

/-! ## Include materializer (`create_includes`, lines 253–286) -/

/-- `f"{block_type}_{hashlib.md5(content.encode()).hexdigest()[:8]}.php"`
joined under `<dir>/includes` — the first member is the canonical template. -/
def includePath (dir : Str) (b : Block) : Str :=
  dir ++ lc "/includes/" ++ b.type ++ ['_'] ++ (md5hex b.content).take 8 ++ lc ".php"

/-- One cluster of `create_includes`: write the canonical content (the first
member's) to its artifact path and record the mapping.  (A cluster with no
members would raise `IndexError` in the source; `identify_common_blocks`
never produces one, and it is skipped here.) -/
def createStep (dir : Str) (acc : List (Str × Str) × List (Str × Str))
    (cl : Str × List Block) : List (Str × Str) × List (Str × Str) :=
  match cl.2 with
  | [] => acc
  | b :: _ =>
    (acc.1 ++ [(cl.1, includePath dir b)],
      updateAssoc acc.2 (includePath dir b) b.content)

/-- `create_includes`: returns
`(include_files, file system after the artifact writes)`. -/
def create_includes (dir : Str) (clusters : List (Str × List Block))
    (fs : List (Str × Str)) : List (Str × Str) × List (Str × Str) :=
  clusters.foldl (createStep dir) ([], fs)

/-- `os.path.relpath(path, directory)` for the paths this model builds
(always `directory ++ "/" ++ rel`). -/
def relpath (p dir : Str) : Str :=
  if (dir ++ ['/']).isPrefixOf p then p.drop (dir.length + 1) else p

/-- `f"<?php include '{relative_include_path}'; ?>\n"`. -/
def includeStatement (relPath : Str) : Str :=
  lc "<?php include " ++ [sqChar] ++ relPath ++ [sqChar] ++ lc "; ?>\n"

/-! ## Rewrite engine (`apply_includes`, lines 288–646)

Each tier is a function from the occurrence and the file's **current**
content to an optional replacement content; the chain stops at the first
success; a success is immediately written back (modelled by updating the
content map) and bumps the replacement counter by one; if no tier succeeds a
warning naming the file is recorded and the run continues.  The four
`BeautifulSoup`-dependent matchers are `Oracles` parameters (see the header);
everything else is translated from the source. -/

/-- The `BeautifulSoup`-dependent matchers of `apply_includes`, as abstract
parameters `(block content, current file content) → result`:
`structMatch` = the nav/header/footer fingerprint match of lines 374–427
(the best same-tag element when its fingerprint similarity is ≥ 0.8);
`scriptMatch` = the attribute-equality script match of lines 438–468 (the
first matching script element whose serialization occurs in the content);
`metaTags` = the meta elements parsed out of the block content (line 478);
`navContainer` = the menu-overlap container match of lines 573–616 (the
first nav/menu container with ≥ 0.7 link overlap whose serialization occurs
in the content). -/
structure Oracles where
  structMatch : Str → Str → Option Str
  scriptMatch : Str → Str → Option Str
  metaTags : Str → List Str
  navContainer : Str → Str → Option Str

/-- The trivial oracle assignment: no structural matches.  (Blocks of type
`php_code` never reach any oracle, so every `php_code` computation below is
independent of this choice.) -/
def noOracle : Oracles :=
  ⟨fun _ _ => none, fun _ _ => none, fun _ => [], fun _ _ => none⟩

/-- APPROACH 1 (lines 333–342): if the recorded block content occurs verbatim
in the current content, `str.replace` it — Python's `replace` substitutes
**every** non-overlapping occurrence — and accept when the content changed. -/
def approach1 (content stmt orig : Str) : Option Str :=
  if occursIn content orig then
    let nc := pyReplaceAll orig content stmt
    if nc ≠ orig then some nc else none
  else none

/-- `re.findall(r'<link[^>]+>', block_content)` (line 354). -/
def matchLinkTagOnly (s : Str) : Option Nat :=
  if (lc "<link").isPrefixOf s then
    let s1 := s.drop 5
    let t := s1.takeWhile (· != '>')
    if t.length = 0 then none
    else
      match s1.drop t.length with
      | '>' :: _ => some (5 + t.length + 1)
      | _ => none
  else none

/-- All `<link[^>]+>` matches, left to right, non-overlapping. -/
def findLinkTags : Nat → Str → List Str
  | 0, _ => []
  | fuel + 1, s =>
    match s with
    | [] => []
    | _ :: rest =>
      match matchLinkTagOnly s with
      | some n => s.take n :: findLinkTags fuel (s.drop n)
      | none => findLinkTags fuel rest

/-- Match `'\\s*'.join(map(re.escape, tags))` at the head of `s`. -/
def matchTagSeq : List Str → Str → Option Nat
  | [], _ => some 0
  | tg :: tgs, s =>
    if tg.isPrefixOf s then
      match tgs with
      | [] => some tg.length
      | _ =>
        let w := countLeadWS (s.drop tg.length)
        (matchTagSeq tgs (s.drop (tg.length + w))).map (· + tg.length + w)
    else none

/-- The leftmost match of the joined-tag pattern: `(start, length)`. -/
def findTagSeq : Nat → Nat → List Str → Str → Option (Nat × Nat)
  | 0, _, _, _ => none
  | fuel + 1, pos, tags, s =>
    match matchTagSeq tags s with
    | some n => some (pos, n)
    | none =>
      match s with
      | [] => none
      | _ :: rest => findTagSeq fuel (pos + 1) tags rest

/-- APPROACH 2 for `css_links`/`link_group` (lines 352–371): rebuild a
whitespace-tolerant pattern from the block's link tags and splice the
statement over the first match. -/
def approach2Css (content stmt orig : Str) : Option Str :=
  let tags := findLinkTags (content.length + 1) content
  if tags.isEmpty then none
  else
    match findTagSeq (orig.length + 1) 0 tags orig with
    | some m => some (orig.take m.1 ++ stmt ++ orig.drop (m.1 + m.2))
    | none => none

/-- APPROACH 2 for `navigation`/`header`/`footer` (lines 374–427): the
fingerprint match is the oracle; the `match_str in original_content` guard and
the `str.replace` (again: **all** occurrences) are the source's. -/
def approach2Nav (O : Oracles) (content stmt orig : Str) : Option Str :=
  match O.structMatch content orig with
  | some m => if occursIn m orig then some (pyReplaceAll orig m stmt) else none
  | none => none

/-- APPROACH 3 for `script` (lines 438–468): oracle plus the source's
substring guard and `str.replace`. -/
def approach3Script (O : Oracles) (content stmt orig : Str) : Option Str :=
  match O.scriptMatch content orig with
  | some m => if occursIn m orig then some (pyReplaceAll orig m stmt) else none
  | none => none

/-- APPROACH 3 for `meta_tags` (lines 474–497): the meta elements come from
the oracle; the joined pattern match and the first-match splice are as in
APPROACH 2. -/
def approach3Meta (O : Oracles) (content stmt orig : Str) : Option Str :=
  let tags := O.metaTags content
  if tags.isEmpty then none
  else
    match findTagSeq (orig.length + 1) 0 tags orig with
    | some m => some (orig.take m.1 ++ stmt ++ orig.drop (m.1 + m.2))
    | none => none

/-- The `for length in range(len(block), len(block)+100)` probe at start
`i` (lines 543–557). -/
def probeAt (nb : Str) (blockLen : Nat) (stmt orig : Str) (i : Nat) : Option Str :=
  (List.range' blockLen 100).findSome? fun len =>
    if i + len ≤ orig.length then
      if normWS ((orig.drop i).take len) = nb then
        some (orig.take i ++ stmt ++ orig.drop (i + len))
      else none
    else none

/-- The `for i in range(max(0, original_start - 100), min(len(original_content),
original_start + 100))` probe (lines 541–559). -/
def probeRange (nb : Str) (blockLen : Nat) (stmt orig : Str) (oStart : Nat) :
    Option Str :=
  let lo := oStart - 100
  let hi := min orig.length (oStart + 100)
  (List.range' lo (hi - lo)).findSome? (probeAt nb blockLen stmt orig)

/-- The `while True` scan over successive occurrences of the normalized block
in the normalized content (lines 528–563).  `start_pos` grows by the length
of the nonempty normalized block each round, so the fuel `nc.length + 1`
dominates the iteration count. -/
def fuzzyLoop (nb : Str) (blockLen : Nat) (stmt orig nc : Str) :
    Nat → Nat → Option Str
  | 0, _ => none
  | fuel + 1, startPos =>
    match findSubFrom nc nb startPos with
    | none => none
    | some pos =>
      let oStart := (rstripWS (normWS (orig.take (pos + 20)))).length
      match probeRange nb blockLen stmt orig oStart with
      | some r => some r
      | none => fuzzyLoop nb blockLen stmt orig nc fuel (pos + nb.length)

/-- APPROACH 4, the whitespace-normalized fuzzy tier (lines 499–566): when
the normalized block occurs in the normalized content, either the
navigation-file special case (whole-file replacement, guarded by
`block_type == 'navigation'`, `'navigation' in basename.lower()` and the
**strict** `len(original_content) < len(block['content']) * 1.5`, i.e.
`2·|orig| < 3·|content|`) or the probing scan. -/
def approach4 (btype bfile content stmt orig : Str) : Option Str :=
  let nc := normWS orig
  let nb := normWS content
  if occursIn nb nc then
    if btype = lc "navigation" ∧
        occursIn (lc "navigation") (lowerStr (basename bfile)) ∧
        2 * orig.length < 3 * content.length then
      some stmt
    else
      fuzzyLoop nb content.length stmt orig nc (nc.length + 1) 0
  else none

/-- APPROACH 5, the navigation link-set containment tier (lines 568–619):
the container choice is the oracle; the replacement is the source's
`str.replace`. -/
def approach5 (O : Oracles) (content stmt orig : Str) : Option Str :=
  match O.navContainer content orig with
  | some m => some (pyReplaceAll orig m stmt)
  | none => none

/-- APPROACH 6, the navigation-file final fallback (lines 621–640): replace
the whole file when it is smaller than the fixed 5000-character ceiling (the
type and filename guards sit in the dispatch). -/
def approach6 (stmt orig : Str) : Option Str :=
  if orig.length < 5000 then some stmt else none

/-- One member occurrence through the tier chain of `apply_includes`
(lines 323–643), with the source's type dispatch: APPROACH 3 has no
`php_code` branch, so `php_code` blocks fall through it. -/
def applyOccurrence (O : Oracles) (stmt orig : Str) (blk : Block) : Option Str :=
  (approach1 blk.content stmt orig).orElse fun _ =>
  (if blk.type = lc "css_links" ∨ blk.type = lc "link_group" then
      approach2Css blk.content stmt orig
    else if blk.type = lc "navigation" ∨ blk.type = lc "header" ∨
        blk.type = lc "footer" then
      approach2Nav O blk.content stmt orig
    else none).orElse fun _ =>
  (if blk.type = lc "script" then approach3Script O blk.content stmt orig
    else if blk.type = lc "meta_tags" then approach3Meta O blk.content stmt orig
    else none).orElse fun _ =>
  (approach4 blk.type blk.file blk.content stmt orig).orElse fun _ =>
  (if blk.type = lc "navigation" then approach5 O blk.content stmt orig
    else none).orElse fun _ =>
  (if blk.type = lc "navigation" ∧
      occursIn (lc "navigation") (lowerStr (basename blk.file)) then
      approach6 stmt orig
    else none)

/-- The running state of `apply_includes`: the live content map
(`self.file_contents`, every write already persisted), the replacement
counter, and the files of the warned unresolved occurrences. -/
structure ApplyAcc where
  fc : List (Str × Str)
  repl : Nat
  warns : List Str
deriving DecidableEq

/-- Process one member occurrence: read the file's current content, run the
tier chain; on success write the new content and count one replacement; on
failure record the warning and leave everything unchanged. -/
def applyMember (O : Oracles) (stmt : Str) (acc : ApplyAcc) (blk : Block) :
    ApplyAcc :=
  match applyOccurrence O stmt (lookupD acc.fc blk.file []) blk with
  | some nc => ⟨updateAssoc acc.fc blk.file nc, acc.repl + 1, acc.warns⟩
  | none => ⟨acc.fc, acc.repl, acc.warns ++ [blk.file]⟩

/-- The `for block in blocks` loop over one cluster's members. -/
def applyMembers (O : Oracles) (stmt : Str) : ApplyAcc → List Block → ApplyAcc
  | acc, [] => acc
  | acc, blk :: rest => applyMembers O stmt (applyMember O stmt acc blk) rest

/-- One cluster: resolve its artifact path, build the reference statement,
process the members. -/
def applyCluster (O : Oracles) (dir : Str) (incs : List (Str × Str))
    (acc : ApplyAcc) (cl : Str × List Block) : ApplyAcc :=
  applyMembers O (includeStatement (relpath (lookupD incs cl.1 []) dir)) acc cl.2

/-- `apply_includes` (lines 288–646). -/
def apply_includes (O : Oracles) (dir : Str) (incs : List (Str × Str))
    (clusters : List (Str × List Block)) (fc : List (Str × Str)) : ApplyAcc :=
  clusters.foldl (applyCluster O dir incs) ⟨fc, 0, []⟩

/-! ## Orchestrator (`run`, lines 648–660, with `scan_directory`) -/

/-- Everything `PHPRefactor` holds: the run's tunables. -/
structure Params where
  minBlockSize : Nat
  thresholdNum : Nat
  thresholdDen : Nat
  minOcc : Nat

/-- The outcome of one `run()`: the file system afterwards and the summary
triple (plus the warnings). -/
structure RunResult where
  fs : List (Str × Str)
  numFiles : Nat
  numClusters : Nat
  replacements : Nat
  warns : List Str
deriving DecidableEq

/-- `scan_directory`: `os.walk` over the root keeping `*.php` files; the file
system list is already in walk order. -/
def scanDirectory (fs : List (Str × Str)) : List (Str × Str) :=
  fs.filter fun e => endsWith (lc ".php") e.1

/-- `run()`: scan → extract → cluster → materialize → rewrite, returning the
mutated file system and the summary counts. -/
def runPipeline (O : Oracles) (dir : Str) (p : Params)
    (fs : List (Str × Str)) : RunResult :=
  let files := scanDirectory fs
  let clusters := identify_common_blocks p.thresholdNum p.thresholdDen p.minOcc
    (allBlocks p.minBlockSize files)
  let ci := create_includes dir clusters fs
  let res := apply_includes O dir ci.1 clusters files
  ⟨res.fc.foldl (fun a e => updateAssoc a e.1 e.2) ci.2,
    files.length, clusters.length, res.repl, res.warns⟩

/-! ## Range discipline of the matcher

`find_longest_match` always returns a match lying inside the requested
ranges (`alo <= i <= i+k <= ahi`, `blo <= j <= j+k <= bhi`, as its docstring
states), so the total matched size over the recursion tree is at most the
length of either range — whence `ratio() ∈ [0,1]`. -/

/-- The match triple lies inside the ranges. -/
def flmOk (st : FLMBest) (alo ahi blo bhi : Nat) : Prop :=
  alo ≤ st.besti ∧ blo ≤ st.bestj ∧
    st.besti + st.bestsize ≤ ahi ∧ st.bestj + st.bestsize ≤ bhi

theorem lookupNat_mem_or_zero (m : List (Nat × Nat)) (k : Nat) :
    lookupNat m k = 0 ∨ (k, lookupNat m k) ∈ m := by
  unfold lookupNat
  cases h : m.find? (fun e => e.1 == k) with
  | none => exact Or.inl rfl
  | some e =>
    right
    have h1 := List.find?_some h
    have h2 := List.mem_of_find?_eq_some h
    have : e.1 = k := by simpa using h1
    simpa [← this] using h2

theorem flmInner_ok {alo ahi blo bhi : Nat} (i : Nat) (old : List (Nat × Nat)) :
    ∀ (js : List Nat) (nj : List (Nat × Nat)) (st : FLMBest),
    alo ≤ i → i < ahi →
    (∀ j ∈ js, blo ≤ j ∧ j < bhi) →
    (∀ e ∈ old, e.2 ≤ i - alo ∧ e.2 ≤ e.1 + 1 - blo) →
    (∀ e ∈ nj, e.2 ≤ i + 1 - alo ∧ e.2 ≤ e.1 + 1 - blo) →
    flmOk st alo ahi blo bhi →
    flmOk (flmInner i old js nj st).2 alo ahi blo bhi ∧
      ∀ e ∈ (flmInner i old js nj st).1, e.2 ≤ i + 1 - alo ∧ e.2 ≤ e.1 + 1 - blo
  | [], nj, st, _, _, _, _, hnj, hst => ⟨hst, hnj⟩
  | j :: js, nj, st, hi1, hi2, hjs, hold, hnj, hst => by
    have hj := hjs j (List.mem_cons_self _ _)
    have hk1 : (if j = 0 then 0 else lookupNat old (j - 1)) + 1 ≤ i + 1 - alo := by
      split
      · omega
      · rcases lookupNat_mem_or_zero old (j - 1) with h0 | hmem
        · omega
        · have := hold _ hmem
          omega
    have hk2 : (if j = 0 then 0 else lookupNat old (j - 1)) + 1 ≤ j + 1 - blo := by
      have hblo : blo ≤ j := hj.1
      split
      · omega
      · next hjne =>
        rcases lookupNat_mem_or_zero old (j - 1) with h0 | hmem
        · omega
        · have := (hold _ hmem).2
          omega
    simp only [flmInner]
    generalize hK : (if j = 0 then 0 else lookupNat old (j - 1)) + 1 = K at hk1 hk2 ⊢
    have hst' : flmOk (if st.bestsize < K then ⟨i + 1 - K, j + 1 - K, K⟩ else st)
        alo ahi blo bhi := by
      obtain ⟨o1, o2, o3, o4⟩ := hst
      split
      · refine ⟨?_, ?_, ?_, ?_⟩ <;> dsimp only <;> omega
      · exact ⟨o1, o2, o3, o4⟩
    refine flmInner_ok i old js _ _ hi1 hi2
      (fun j' hj' => hjs j' (List.mem_cons_of_mem _ hj')) hold ?_ hst'
    intro e he
    rcases List.mem_cons.1 he with rfl | he'
    · exact ⟨hk1, hk2⟩
    · exact hnj e he'

theorem flmOuter_ok {alo ahi blo bhi : Nat} (a : Str) (t : List (Char × List Nat)) :
    ∀ (n i0 : Nat) (j2len : List (Nat × Nat)) (st : FLMBest),
    alo ≤ i0 → i0 + n ≤ ahi →
    (∀ e ∈ j2len, e.2 ≤ i0 - alo ∧ e.2 ≤ e.1 + 1 - blo) →
    flmOk st alo ahi blo bhi →
    flmOk (flmOuter a t blo bhi (List.range' i0 n) j2len st) alo ahi blo bhi
  | 0, i0, j2len, st, _, _, _, hst => hst
  | n + 1, i0, j2len, st, h1, h2, hj, hst => by
    show flmOk (flmOuter a t blo bhi (i0 :: List.range' (i0 + 1) n) j2len st) _ _ _ _
    simp only [flmOuter]
    have hjs : ∀ j ∈ (b2jGet t (a.getD i0 ' ')).filter
        (fun j => decide (blo ≤ j) && decide (j < bhi)), blo ≤ j ∧ j < bhi := by
      intro j hjf
      have := (List.mem_filter.1 hjf).2
      simp only [Bool.and_eq_true, decide_eq_true_eq] at this
      exact this
    have hinner := flmInner_ok i0 j2len _ ([] : List (Nat × Nat)) st h1 (by omega)
      hjs hj (by simp) hst
    exact flmOuter_ok a t n (i0 + 1) _ _ (by omega) (by omega)
      (fun e he => by have := hinner.2 e he; omega) hinner.1

theorem extendBack_ok {alo ahi blo bhi : Nat} (a b : Str) :
    ∀ (fuel : Nat) (st : FLMBest), flmOk st alo ahi blo bhi →
    flmOk (extendBack a b alo blo fuel st) alo ahi blo bhi
  | 0, _, hst => hst
  | fuel + 1, st, hst => by
    simp only [extendBack]
    split
    · next hc =>
      simp only [Bool.and_eq_true, decide_eq_true_eq] at hc
      refine extendBack_ok a b fuel _ ?_
      obtain ⟨⟨h1, h2⟩, _⟩ := hc
      obtain ⟨o1, o2, o3, o4⟩ := hst
      refine ⟨?_, ?_, ?_, ?_⟩ <;> dsimp only <;> omega
    · exact hst

theorem extendFwd_ok {alo ahi blo bhi : Nat} (a b : Str) :
    ∀ (fuel : Nat) (st : FLMBest), flmOk st alo ahi blo bhi →
    flmOk (extendFwd a b ahi bhi fuel st) alo ahi blo bhi
  | 0, _, hst => hst
  | fuel + 1, st, hst => by
    simp only [extendFwd]
    split
    · next hc =>
      simp only [Bool.and_eq_true, decide_eq_true_eq] at hc
      refine extendFwd_ok a b fuel _ ?_
      obtain ⟨⟨h1, h2⟩, _⟩ := hc
      obtain ⟨o1, o2, o3, o4⟩ := hst
      refine ⟨?_, ?_, ?_, ?_⟩ <;> dsimp only <;> omega
    · exact hst

/-- The docstring contract of `find_longest_match`:
`alo <= i <= i+k <= ahi` and `blo <= j <= j+k <= bhi`. -/
theorem findLongestMatch_ok (a b : Str) (t : List (Char × List Nat))
    {alo ahi blo bhi : Nat} (h1 : alo ≤ ahi) (h2 : blo ≤ bhi) :
    flmOk (findLongestMatch a b t alo ahi blo bhi) alo ahi blo bhi := by
  unfold findLongestMatch
  refine extendFwd_ok a b _ _ (extendBack_ok a b _ _ ?_)
  refine flmOuter_ok a t (ahi - alo) alo [] _ (le_refl _) (by omega) (by simp) ?_
  refine ⟨?_, ?_, ?_, ?_⟩ <;> dsimp only <;> omega

/-- The total matched size is at most the length of the `a`-range: the match
and the two sub-ranges partition the range disjointly. -/
theorem matchingSumF_le_a (a b : Str) (t : List (Char × List Nat)) :
    ∀ (fuel : Nat) {alo ahi blo bhi : Nat}, alo ≤ ahi → blo ≤ bhi →
    matchingSumF a b t fuel alo ahi blo bhi ≤ ahi - alo
  | 0, _, _, _, _, _, _ => Nat.zero_le _
  | fuel + 1, alo, ahi, blo, bhi, h1, h2 => by
    simp only [matchingSumF]
    have hok := findLongestMatch_ok a b t h1 h2
    obtain ⟨o1, o2, o3, o4⟩ := hok
    split
    · omega
    · have hL : (if alo < (findLongestMatch a b t alo ahi blo bhi).besti ∧
          blo < (findLongestMatch a b t alo ahi blo bhi).bestj then
            matchingSumF a b t fuel alo (findLongestMatch a b t alo ahi blo bhi).besti
              blo (findLongestMatch a b t alo ahi blo bhi).bestj
          else 0) ≤ (findLongestMatch a b t alo ahi blo bhi).besti - alo := by
        split
        · exact matchingSumF_le_a a b t fuel o1 o2
        · omega
      have hR : (if (findLongestMatch a b t alo ahi blo bhi).besti +
            (findLongestMatch a b t alo ahi blo bhi).bestsize < ahi ∧
          (findLongestMatch a b t alo ahi blo bhi).bestj +
            (findLongestMatch a b t alo ahi blo bhi).bestsize < bhi then
            matchingSumF a b t fuel
              ((findLongestMatch a b t alo ahi blo bhi).besti +
                (findLongestMatch a b t alo ahi blo bhi).bestsize) ahi
              ((findLongestMatch a b t alo ahi blo bhi).bestj +
                (findLongestMatch a b t alo ahi blo bhi).bestsize) bhi
          else 0) ≤ ahi - ((findLongestMatch a b t alo ahi blo bhi).besti +
            (findLongestMatch a b t alo ahi blo bhi).bestsize) := by
        split
        · next hg => exact matchingSumF_le_a a b t fuel (by omega) (by omega)
        · omega
      omega

/-- The total matched size is at most the length of the `b`-range. -/
theorem matchingSumF_le_b (a b : Str) (t : List (Char × List Nat)) :
    ∀ (fuel : Nat) {alo ahi blo bhi : Nat}, alo ≤ ahi → blo ≤ bhi →
    matchingSumF a b t fuel alo ahi blo bhi ≤ bhi - blo
  | 0, _, _, _, _, _, _ => Nat.zero_le _
  | fuel + 1, alo, ahi, blo, bhi, h1, h2 => by
    simp only [matchingSumF]
    have hok := findLongestMatch_ok a b t h1 h2
    obtain ⟨o1, o2, o3, o4⟩ := hok
    split
    · omega
    · have hL : (if alo < (findLongestMatch a b t alo ahi blo bhi).besti ∧
          blo < (findLongestMatch a b t alo ahi blo bhi).bestj then
            matchingSumF a b t fuel alo (findLongestMatch a b t alo ahi blo bhi).besti
              blo (findLongestMatch a b t alo ahi blo bhi).bestj
          else 0) ≤ (findLongestMatch a b t alo ahi blo bhi).bestj - blo := by
        split
        · exact matchingSumF_le_b a b t fuel o1 o2
        · omega
      have hR : (if (findLongestMatch a b t alo ahi blo bhi).besti +
            (findLongestMatch a b t alo ahi blo bhi).bestsize < ahi ∧
          (findLongestMatch a b t alo ahi blo bhi).bestj +
            (findLongestMatch a b t alo ahi blo bhi).bestsize < bhi then
            matchingSumF a b t fuel
              ((findLongestMatch a b t alo ahi blo bhi).besti +
                (findLongestMatch a b t alo ahi blo bhi).bestsize) ahi
              ((findLongestMatch a b t alo ahi blo bhi).bestj +
                (findLongestMatch a b t alo ahi blo bhi).bestsize) bhi
          else 0) ≤ bhi - ((findLongestMatch a b t alo ahi blo bhi).bestj +
            (findLongestMatch a b t alo ahi blo bhi).bestsize) := by
        split
        · next hg => exact matchingSumF_le_b a b t fuel (by omega) (by omega)
        · omega
      omega

/-- `M ≤ min(len(a), len(b))`, hence `2·M ≤ len(a) + len(b)`. -/
theorem pyMatches_le (a b : Str) : 2 * pyMatches a b ≤ a.length + b.length := by
  have ha := matchingSumF_le_a a b (b2jTable b) (a.length + b.length + 1)
    (Nat.zero_le a.length) (Nat.zero_le b.length)
  have hb := matchingSumF_le_b a b (b2jTable b) (a.length + b.length + 1)
    (Nat.zero_le a.length) (Nat.zero_le b.length)
  unfold pyMatches
  omega

/-! ## Claim C4 — the similarity scorer -/

/-- C4 counterexample: the scorer `SequenceMatcher(None, ·, ·).ratio()` is
**not** symmetric.  On `"tide"`/`"diet"` the matcher finds only the single
match `t` one way (the leftmost-in-`a` tie-breaking picks `('t', b=3)`, whose
right sub-range is empty on the `b` side), but `d` and then `e` the other
way: the ratios are 2·1/8 = 1/4 and 2·2/8 = 1/2. -/
theorem C4_counterexample :
    pyRatio (lc "tide") (lc "diet") ≠ pyRatio (lc "diet") (lc "tide") := by
  have h1 : pyMatches (lc "tide") (lc "diet") = 1 := by decide
  have h2 : pyMatches (lc "diet") (lc "tide") = 2 := by decide
  have l1 : (lc "tide").length = 4 := by decide
  have l2 : (lc "diet").length = 4 := by decide
  simp only [pyRatio, h1, h2, l1, l2]
  norm_num

/-- C4 (amended): for every pair of text spans the similarity scorer used by
clustering returns a value in the closed interval `[0,1]` and is
deterministic (it is a pure function of its two arguments); it is **not**
symmetric in general (see the counterexample). -/
theorem C4_amended (a b : Str) : 0 ≤ pyRatio a b ∧ pyRatio a b ≤ 1 := by
  unfold pyRatio
  split
  · exact ⟨zero_le_one, le_refl 1⟩
  · next h =>
    have hM := pyMatches_le a b
    have hpos : (0 : ℚ) < (a.length : ℚ) + (b.length : ℚ) := by
      have hn : 0 < a.length + b.length := Nat.pos_of_ne_zero h
      exact_mod_cast hn
    constructor
    · positivity
    · rw [div_le_one hpos]
      have : ((2 * pyMatches a b : Nat) : ℚ) ≤ ((a.length + b.length : Nat) : ℚ) := by
        exact_mod_cast hM
      push_cast at this
      linarith

/-! ## Cluster invariants (claims C2 and C6) -/

/-- The `Nat`-form threshold test agrees with the rational comparison
`threshold ≤ ratio`. -/
theorem ratioGe_iff (a b : Str) (tn td : Nat) (htd : td ≠ 0) :
    ratioGe a b tn td = true ↔ (tn : ℚ) / (td : ℚ) ≤ pyRatio a b := by
  have htd' : (0 : ℚ) < (td : ℚ) := by exact_mod_cast Nat.pos_of_ne_zero htd
  by_cases hT : a.length + b.length = 0
  · simp only [ratioGe, pyRatio, hT, if_true, if_pos, decide_eq_true_eq]
    rw [div_le_one htd']
    exact ⟨fun hle => by exact_mod_cast hle, fun hle => by exact_mod_cast hle⟩
  · have hT' : (0 : ℚ) < (a.length : ℚ) + (b.length : ℚ) := by
      have := Nat.pos_of_ne_zero hT
      exact_mod_cast this
    simp only [ratioGe, pyRatio, hT, if_false, if_neg, decide_eq_true_eq]
    rw [div_le_div_iff₀ htd' hT']
    constructor
    · intro hle
      have h2 : ((tn * (a.length + b.length) : Nat) : ℚ) ≤
          ((2 * pyMatches a b * td : Nat) : ℚ) := by exact_mod_cast hle
      push_cast at h2
      linarith
    · intro hle
      have h2 : ((tn * (a.length + b.length) : Nat) : ℚ) ≤
          ((2 * pyMatches a b * td : Nat) : ℚ) := by push_cast; linarith
      exact_mod_cast h2

/-- Every member the seed scan adds comes from a file other than the
**seed's** file and scores at least the threshold against the seed. -/
theorem scanCandidates_inv (seed : Block) (tn td : Nat) :
    ∀ (rest : List Block) (processed : List Str) (m : Block),
    m ∈ (scanCandidates seed tn td rest processed).1 →
    m.file ≠ seed.file ∧ ratioGe seed.content m.content tn td = true
  | [], _, m, hm => by simp [scanCandidates] at hm
  | b :: rest, processed, m, hm => by
    simp only [scanCandidates] at hm
    split at hm
    · exact scanCandidates_inv seed tn td rest processed m hm
    · next hskip =>
      split at hm
      · next hsim =>
        rcases List.mem_cons.1 hm with rfl | hm'
        · refine ⟨?_, hsim⟩
          simp only [Bool.or_eq_true, beq_iff_eq] at hskip
          intro hfe
          exact hskip (Or.inr (by rw [hfe]))
        · exact scanCandidates_inv seed tn td rest _ _ hm'
      · exact scanCandidates_inv seed tn td rest processed m hm

/-- Every retained cluster is its seed followed by the members the scan
added: each of those is from a different file than the seed and scores at
least the threshold against the seed. -/
theorem identifyLoop_inv (tn td minOcc : Nat) :
    ∀ (blocks : List Block) (processed : List Str) (n : Nat)
      (cl : Str × List Block), cl ∈ identifyLoop tn td minOcc blocks processed n →
    ∃ seed added, cl.2 = seed :: added ∧
      ∀ m ∈ added, m.file ≠ seed.file ∧ ratioGe seed.content m.content tn td = true
  | [], _, _, _, hcl => by simp [identifyLoop] at hcl
  | b :: rest, processed, n, cl, hcl => by
    simp only [identifyLoop] at hcl
    split at hcl
    · exact identifyLoop_inv tn td minOcc rest processed n cl hcl
    · split at hcl
      · rcases List.mem_cons.1 hcl with rfl | hcl'
        · exact ⟨b, (scanCandidates b tn td rest processed).1, rfl,
            fun m hm => scanCandidates_inv b tn td rest processed m hm⟩
        · exact identifyLoop_inv tn td minOcc rest _ _ cl hcl'
      · exact identifyLoop_inv tn td minOcc rest _ n cl hcl

/-! ## Claim C2 — distinct files within a cluster -/

/-- The three blocks of the C2 counterexample: the seed lives in `a.php`,
and `b.php` contributes **two** near-identical candidate blocks. -/
def blkC2A : Block :=
  ⟨lc "php_code", lc "<?php aaaaaaaab ?>", md5hex (lc "aaaaaaaab"), lc "site/a.php"⟩

def blkC2B1 : Block :=
  ⟨lc "php_code", lc "<?php aaaaaaaab ?>", md5hex (lc "aaaaaaaab"), lc "site/b.php"⟩

def blkC2B2 : Block :=
  ⟨lc "php_code", lc "<?php aaaaaaaabc ?>", md5hex (lc "aaaaaaaabc"), lc "site/b.php"⟩

/-- C2 counterexample input: the extraction-ordered block list. -/
def blocksC2 : List Block := [blkC2A, blkC2B1, blkC2B2]

/-- C2 counterexample: with threshold 0.9 and `min_occurrences = 2`, the
cluster builder retains a single cluster containing **two members from the
same file** `site/b.php` — the formation scan only skips candidates from the
*seed's* file (line 235 compares `block1['file']` with `block2['file']`),
not from files already represented in the forming cluster. -/
theorem C2_counterexample :
    (identify_common_blocks 9 10 2 blocksC2).map Prod.snd =
      [[blkC2A, blkC2B1, blkC2B2]] ∧
    blkC2B1.file = blkC2B2.file ∧ blkC2B1 ≠ blkC2B2 := by decide

/-- C2 (amended): during cluster formation a candidate is skipped only when
its file equals the **seed's** file; consequently every non-seed member of a
retained cluster originates from a file distinct from the seed's file — but
a single non-seed file may contribute several members to the same cluster
(see the counterexample). -/
theorem C2_amended (tn td minOcc : Nat) (blocks : List Block)
    (cl : Str × List Block) (hcl : cl ∈ identify_common_blocks tn td minOcc blocks) :
    ∀ m ∈ cl.2.tail, ∀ s ∈ cl.2.head?, m.file ≠ s.file := by
  obtain ⟨seed, added, he, hinv⟩ := identifyLoop_inv tn td minOcc blocks [] 0 cl hcl
  rw [he]
  intro m hm s hs
  simp only [List.head?_cons, Option.mem_def, Option.some.injEq] at hs
  subst hs
  exact (hinv m hm).1

/-- C2 amended, instantiated: in the retained cluster of the counterexample
data, the non-seed member `blkC2B1` is from a different file than the seed. -/
theorem C2_amended_witness :
    (lc "php_code_0", [blkC2A, blkC2B1, blkC2B2]) ∈
      identify_common_blocks 9 10 2 blocksC2 ∧
    blkC2B1.file ≠ blkC2A.file :=
  ⟨by decide,
    C2_amended 9 10 2 blocksC2 (lc "php_code_0", [blkC2A, blkC2B1, blkC2B2])
      (by decide) blkC2B1 (by decide) blkC2A (by decide)⟩

/-! ## Claim C6 — pairwise-dissimilar blocks in one retained cluster -/

/-- C6 counterexample data: `X` is halfway between `Y` and `Z`, which share
nothing with each other. -/
def blkC6X : Block := ⟨lc "php_code", lc "aabb", md5hex (lc "aabb"), lc "site/x.php"⟩

def blkC6Y : Block := ⟨lc "php_code", lc "aaaa", md5hex (lc "aaaa"), lc "site/y.php"⟩

def blkC6Z : Block := ⟨lc "php_code", lc "bbbb", md5hex (lc "bbbb"), lc "site/z.php"⟩

def blocksC6 : List Block := [blkC6X, blkC6Y, blkC6Z]

/-- C6 counterexample: with threshold 0.5, the blocks `Y` and `Z` end up in
the same retained cluster (each scores 0.5 against the seed `X`) although
their pairwise similarity is 0 — strictly below the threshold.  Greedy
single-link clustering scores only against the seed. -/
theorem C6_counterexample :
    (identify_common_blocks 1 2 2 blocksC6).map Prod.snd =
      [[blkC6X, blkC6Y, blkC6Z]] ∧
    pyRatio blkC6Y.content blkC6Z.content < (1 : ℚ) / 2 := by
  constructor
  · decide
  · have h0 : pyMatches blkC6Y.content blkC6Z.content = 0 := by decide
    have hl1 : blkC6Y.content.length = 4 := by decide
    have hl2 : blkC6Z.content.length = 4 := by decide
    simp only [pyRatio, h0, hl1, hl2]
    norm_num

/-- C6 (amended): a candidate whose similarity **to the seed** is strictly
below the threshold never joins the seed's cluster — every non-seed member
of a retained cluster scores at least the threshold against the seed; two
non-seed members, however, may score below the threshold against each other
(see the counterexample). -/
theorem C6_amended (tn td minOcc : Nat) (htd : td ≠ 0) (blocks : List Block)
    (cl : Str × List Block) (hcl : cl ∈ identify_common_blocks tn td minOcc blocks) :
    ∀ m ∈ cl.2.tail, ∀ s ∈ cl.2.head?,
      (tn : ℚ) / (td : ℚ) ≤ pyRatio s.content m.content := by
  obtain ⟨seed, added, he, hinv⟩ := identifyLoop_inv tn td minOcc blocks [] 0 cl hcl
  rw [he]
  intro m hm s hs
  simp only [List.head?_cons, Option.mem_def, Option.some.injEq] at hs
  subst hs
  exact (ratioGe_iff _ _ tn td htd).1 (hinv m hm).2

/-- C6 amended, instantiated on the counterexample data: the non-seed member
`Y` scores at least the 0.5 threshold against the seed `X`. -/
theorem C6_amended_witness :
    (lc "php_code_0", [blkC6X, blkC6Y, blkC6Z]) ∈
      identify_common_blocks 1 2 2 blocksC6 ∧
    (1 : ℚ) / 2 ≤ pyRatio blkC6X.content blkC6Y.content :=
  ⟨by decide,
    C6_amended 1 2 2 (by decide) blocksC6 (lc "php_code_0", [blkC6X, blkC6Y, blkC6Z])
      (by decide) blkC6Y (by decide) blkC6X (by decide)⟩

/-! ## Claim C1 — the exact-substring tier -/

/-- `p` is not a prefix of a list headed by a character foreign to `p`. -/
theorem isPrefixOf_false_of_head_notMem {p : Str} (hp : p ≠ [])
    {a : Char} {l : Str} (ha : a ∉ p) : p.isPrefixOf (a :: l) = false := by
  cases p with
  | nil => exact absurd rfl hp
  | cons q p' =>
    have hqa : (q == a) = false := by
      have : q ≠ a := fun he => ha (he ▸ List.mem_cons_self q p')
      simpa using this
    simp [List.isPrefixOf, hqa]

/-- The leftmost occurrence of `p` in `x ++ p ++ rest` is at `x.length` when
no character of `p` occurs in `x`. -/
theorem findSub_append {p : Str} (hp : p ≠ []) :
    ∀ (x : Str) (rest : Str), (∀ ch ∈ p, ch ∉ x) →
    findSub (x ++ (p ++ rest)) p = some x.length
  | [], rest, _ => by
    have hpre : p.isPrefixOf (p ++ rest) = true :=
      List.isPrefixOf_iff_prefix.2 (List.prefix_append p rest)
    show findSub (p ++ rest) p = some 0
    unfold findSub
    simp [hpre]
  | a :: x, rest, hd => by
    have hnp : p.isPrefixOf (a :: (x ++ (p ++ rest))) = false :=
      isPrefixOf_false_of_head_notMem hp fun hain =>
        (hd a hain) (List.mem_cons_self a x)
    have ih := findSub_append hp x rest fun ch hch hmem =>
      hd ch hch (List.mem_cons_of_mem a hmem)
    simp [findSub, hnp, ih]

/-- `p` does not occur in `z` when no character of `p` occurs in `z`. -/
theorem findSub_none_of_disjoint {p : Str} (hp : p ≠ []) :
    ∀ (z : Str), (∀ ch ∈ p, ch ∉ z) → findSub z p = none
  | [], _ => by
    have : p.isPrefixOf [] = false := by
      cases p with
      | nil => exact absurd rfl hp
      | cons q p' => rfl
    simp [findSub, this]
  | a :: z, hd => by
    have hnp : p.isPrefixOf (a :: z) = false :=
      isPrefixOf_false_of_head_notMem hp fun hain => (hd a hain) (List.mem_cons_self a z)
    have ih := findSub_none_of_disjoint hp z fun ch hch hmem =>
      hd ch hch (List.mem_cons_of_mem a hmem)
    simp [findSub, hnp, ih]

/-- Replacement is the identity where the pattern does not occur. -/
theorem pyReplaceAllF_no_occ (r p z : Str) (h : findSub z p = none) :
    ∀ fuel, pyReplaceAllF r p fuel z = z
  | 0 => rfl
  | fuel + 1 => by simp [pyReplaceAllF, h]

/-- An occurrence witnessed at a position within the text makes `in` true. -/
theorem occursIn_of_prefix_drop {p c : Str} (n : Nat) (hn : n ≤ c.length)
    (h : p.isPrefixOf (c.drop n) = true) : occursIn p c = true := by
  unfold occursIn
  rw [List.any_eq_true]
  exact ⟨n, List.mem_range.2 (by omega), h⟩

/-- One unfolding of the fuelled replacement at a leading block `x ++ p`. -/
theorem pyReplaceAllF_step {p : Str} (hp : p ≠ []) (r x rest : Str)
    (hx : ∀ ch ∈ p, ch ∉ x) (fuel : Nat) :
    pyReplaceAllF r p (fuel + 1) (x ++ (p ++ rest)) =
      x ++ r ++ pyReplaceAllF r p fuel rest := by
  have hfind := findSub_append hp x rest hx
  simp only [pyReplaceAllF, hfind]
  have ht : (x ++ (p ++ rest)).take x.length = x := List.take_left x (p ++ rest)
  have hd : (x ++ (p ++ rest)).drop (x.length + p.length) = rest := by
    rw [← List.append_assoc, ← List.length_append x p]
    exact List.drop_left _ _
  rw [ht, hd, List.append_assoc]

/-- C1 counterexample data: a block content occurring **twice** verbatim in
the owning file. -/
def pC1 : Str := lc "<?php aaaaaaaa ?>"

def stmtC1 : Str := includeStatement (lc "includes/php_code_xxxxxxxx.php")

def contentC1 : Str := pC1 ++ lc "\n" ++ pC1

/-- C1 counterexample: the exact-substring tier (line 335,
`original_content.replace(block['content'], include_statement)`) rewrites
**both** verbatim copies — afterwards the block content no longer occurs at
all, while the claim says the later copy is left unchanged. -/
theorem C1_counterexample :
    approach1 pC1 stmtC1 contentC1 = some (stmtC1 ++ lc "\n" ++ stmtC1) ∧
    occursIn pC1 (stmtC1 ++ lc "\n" ++ stmtC1) = false ∧
    stmtC1 ++ lc "\n" ++ stmtC1 ≠ stmtC1 ++ lc "\n" ++ pC1 := by decide

/-- C1 (amended): when the recorded block content is found verbatim in the
file's current content, the tier-1 exact-substring replacement substitutes
the reference statement for **every** leftmost-first non-overlapping
verbatim occurrence (Python `str.replace` replaces all copies), leaving no
later verbatim occurrence behind.  Stated for contents
`x ++ p ++ y ++ p ++ z` whose context parts share no character with the
block, which pins both occurrences down. -/
theorem C1_amended (x y z p r : Str) (hp : p ≠ [])
    (hx : ∀ ch ∈ p, ch ∉ x) (hy : ∀ ch ∈ p, ch ∉ y) (hz : ∀ ch ∈ p, ch ∉ z)
    (hr : ∀ ch ∈ p, ch ∉ r) :
    approach1 p r (x ++ p ++ y ++ p ++ z) = some (x ++ r ++ y ++ r ++ z) := by
  have hplen : p.length ≠ 0 := by
    cases p with
    | nil => exact absurd rfl hp
    | cons a p' => simp
  simp only [List.append_assoc]
  have hocc : occursIn p (x ++ (p ++ (y ++ (p ++ z)))) = true := by
    refine occursIn_of_prefix_drop x.length ?_ ?_
    · simp only [List.length_append]
      omega
    · rw [List.drop_left]
      exact List.isPrefixOf_iff_prefix.2 (List.prefix_append p _)
  have hrepl : pyReplaceAll (x ++ (p ++ (y ++ (p ++ z)))) p r =
      x ++ (r ++ (y ++ (r ++ z))) := by
    unfold pyReplaceAll
    rw [pyReplaceAllF_step hp r x _ hx]
    obtain ⟨M, hM⟩ : ∃ M, (x ++ (p ++ (y ++ (p ++ z)))).length = M + 1 := by
      refine Nat.exists_eq_succ_of_ne_zero ?_
      simp only [List.length_append]
      omega
    rw [hM, pyReplaceAllF_step hp r y _ hy,
      pyReplaceAllF_no_occ r p z (findSub_none_of_disjoint hp z hz)]
    simp [List.append_assoc]
  have hneq : x ++ (r ++ (y ++ (r ++ z))) ≠ x ++ (p ++ (y ++ (p ++ z))) := by
    obtain ⟨c0, p', rfl⟩ : ∃ c0 p', p = c0 :: p' := by
      cases p with
      | nil => exact absurd rfl hp
      | cons a b => exact ⟨a, b, rfl⟩
    intro he
    have hm := List.mem_cons_self c0 p'
    have hcx : List.count c0 x = 0 := List.count_eq_zero.2 (hx c0 hm)
    have hcy : List.count c0 y = 0 := List.count_eq_zero.2 (hy c0 hm)
    have hcz : List.count c0 z = 0 := List.count_eq_zero.2 (hz c0 hm)
    have hcr : List.count c0 r = 0 := List.count_eq_zero.2 (hr c0 hm)
    have hl : List.count c0 (x ++ (r ++ (y ++ (r ++ z)))) = 0 := by
      simp [List.count_append, hcx, hcy, hcz, hcr]
    have hrt : 0 < List.count c0 (x ++ ((c0 :: p') ++ (y ++ ((c0 :: p') ++ z)))) := by
      simp [List.count_append, List.count_cons_self]
    rw [he] at hl
    omega
  unfold approach1
  rw [hocc]
  simp only [if_true, hrepl]
  rw [if_pos hneq]

/-- C1 amended, instantiated on character-disjoint context parts. -/
theorem C1_amended_witness :
    ((lc "PPP" : Str) ≠ [] ∧ (∀ ch ∈ lc "PPP", ch ∉ lc "aa") ∧
      (∀ ch ∈ lc "PPP", ch ∉ lc "bb") ∧ (∀ ch ∈ lc "PPP", ch ∉ lc "cc") ∧
      (∀ ch ∈ lc "PPP", ch ∉ lc "<rs>")) ∧
    approach1 (lc "PPP") (lc "<rs>")
        (lc "aa" ++ lc "PPP" ++ lc "bb" ++ lc "PPP" ++ lc "cc") =
      some (lc "aa" ++ lc "<rs>" ++ lc "bb" ++ lc "<rs>" ++ lc "cc") :=
  ⟨⟨by decide, by decide, by decide, by decide, by decide⟩,
    C1_amended (lc "aa") (lc "bb") (lc "cc") (lc "PPP") (lc "<rs>")
      (by decide) (by decide) (by decide) (by decide) (by decide)⟩

/-! ## Claim C3 — idempotence of the pipeline -/

/-- Parameters `min_block_size = 8`, threshold `0.9`, `min_occurrences = 2`
for the counterexample runs (both runs use these same parameters). -/
def prmC3 : Params := ⟨8, 9, 10, 2⟩

/-- C3 counterexample input: two page files sharing one identical PHP
block. -/
def fs0C3 : List (Str × Str) :=
  [(lc "site/a.php", lc "<?php abcdefgh ?>"),
   (lc "site/b.php", lc "<?php abcdefgh ?>")]

/-- The reference statement the first run writes into both page files
(`05128658` is `md5("<?php abcdefgh ?>")[:8]`). -/
def stmtC3 : Str :=
  lc "<?php include " ++ [sqChar] ++ lc "includes/php_code_05128658.php" ++
    [sqChar] ++ lc "; ?>\n"

/-- The directory state after the first run: both page files hold only the
reference statement, and the artifact holds the block. -/
def fsMidC3 : List (Str × Str) :=
  [(lc "site/a.php", stmtC3), (lc "site/b.php", stmtC3),
   (lc "site/includes/php_code_05128658.php", lc "<?php abcdefgh ?>")]

theorem c3Run1_eq : runPipeline noOracle (lc "site") prmC3 fs0C3 =
    ⟨fsMidC3, 2, 1, 2, []⟩ := by decide

theorem c3Stage2 :
    (runPipeline noOracle (lc "site") prmC3 fsMidC3).numClusters = 1 ∧
    (runPipeline noOracle (lc "site") prmC3 fsMidC3).replacements = 2 := by decide

/-- C3 counterexample: the pipeline is **not** idempotent.  On `fs0C3` the
first run completes (retaining one cluster and replacing both occurrences),
but the second run over its output state, with identical parameters, retains
**one new cluster** and makes **two replacements**: with
`min_block_size = 8` the reference statements written by the first run are
themselves PHP blocks of at least `min_block_size` characters, identical
across the two page files, so they cluster and are rewritten again. -/
theorem C3_counterexample :
    (runPipeline noOracle (lc "site") prmC3
        (runPipeline noOracle (lc "site") prmC3 fs0C3).fs).numClusters = 1 ∧
    (runPipeline noOracle (lc "site") prmC3
        (runPipeline noOracle (lc "site") prmC3 fs0C3).fs).replacements = 2 := by
  rw [congrArg RunResult.fs c3Run1_eq]
  exact c3Stage2

/-- A scan in which every candidate comes from the seed's own file adds no
member (line 235 skips them all). -/
theorem scanCandidates_same_file (seed : Block) (tn td : Nat) :
    ∀ (rest : List Block) (processed : List Str),
    (∀ b ∈ rest, b.file = seed.file) →
    scanCandidates seed tn td rest processed = ([], processed)
  | [], _, _ => rfl
  | b :: rest, processed, hall => by
    have hbf : (seed.file == b.file) = true := by
      have h := hall b (List.mem_cons_self _ _)
      simp [h]
    simp only [scanCandidates, hbf, Bool.or_true, if_true]
    exact scanCandidates_same_file seed tn td rest processed
      (fun x hx => hall x (List.mem_cons_of_mem _ hx))

/-- With `min_occurrences ≥ 2`, a block list drawn from a single file
produces no retained cluster: every forming cluster stays a singleton. -/
theorem identifyLoop_single_file (tn td minOcc : Nat) (hmo : 2 ≤ minOcc) (f0 : Str) :
    ∀ (blocks : List Block) (processed : List Str) (n : Nat),
    (∀ b ∈ blocks, b.file = f0) →
    identifyLoop tn td minOcc blocks processed n = []
  | [], _, _, _ => rfl
  | b :: rest, processed, n, hall => by
    simp only [identifyLoop]
    split
    · exact identifyLoop_single_file tn td minOcc hmo f0 rest processed n
        (fun x hx => hall x (List.mem_cons_of_mem _ hx))
    · have hscan : scanCandidates b tn td rest processed = ([], processed) :=
        scanCandidates_same_file b tn td rest processed fun x hx => by
          rw [hall x (List.mem_cons_of_mem _ hx), hall b (List.mem_cons_self _ _)]
      rw [hscan]
      rw [if_neg (by simp; omega)]
      exact identifyLoop_single_file tn td minOcc hmo f0 rest processed n
        (fun x hx => hall x (List.mem_cons_of_mem _ hx))

/-- C3 (amended): the pipeline is not idempotent in general (see the
counterexample); a run retains zero clusters and makes zero replacements
whenever all candidate blocks of the scanned state originate from a single
file — in particular on a post-run state in which every duplicated block
occurrence was replaced and only one artifact file still holds block-sized
text. -/
theorem C3_amended (O : Oracles) (dir : Str) (p : Params)
    (fs : List (Str × Str)) (f0 : Str) (hmo : 2 ≤ p.minOcc)
    (hsingle : ∀ b ∈ allBlocks p.minBlockSize (scanDirectory fs), b.file = f0) :
    (runPipeline O dir p fs).numClusters = 0 ∧
      (runPipeline O dir p fs).replacements = 0 := by
  have hid : identify_common_blocks p.thresholdNum p.thresholdDen p.minOcc
      (allBlocks p.minBlockSize (scanDirectory fs)) = [] :=
    identifyLoop_single_file _ _ _ hmo f0 _ [] 0 hsingle
  simp only [runPipeline]
  rw [hid]
  simp [create_includes, apply_includes]

/-- The default parameters of the tool (`min_block_size = 50`,
threshold `0.9`, `min_occurrences = 2`). -/
def prmDefault : Params := ⟨50, 9, 10, 2⟩

/-- C3 amended, instantiated on the post-run state `fsMidC3` with the
default parameters: the reference statements are below `min_block_size`, so
only the artifact file could contribute blocks (here even it is too small),
and the rerun is idle. -/
theorem C3_amended_witness :
    (2 ≤ prmDefault.minOcc ∧
      ∀ b ∈ allBlocks prmDefault.minBlockSize (scanDirectory fsMidC3),
        b.file = ([] : Str)) ∧
    (runPipeline noOracle (lc "site") prmDefault fsMidC3).numClusters = 0 ∧
    (runPipeline noOracle (lc "site") prmDefault fsMidC3).replacements = 0 :=
  ⟨⟨by decide, by decide⟩,
    C3_amended noOracle (lc "site") prmDefault fsMidC3 [] (by decide) (by decide)⟩

/-! ## Claim C5 — the minimum block size in extraction -/

/-- C5 counterexample input: exactly the four link elements of the fixed
CSS-literal pattern (in BeautifulSoup's serialization normal form, so
`str(soup)` is this very text), 133 characters in total. -/
def linkC5 : Str :=
  lc "<link href=\"/css/style.css\"/><link href=\"/css/responsive.css\"/><link href=\"/css/fotorama.dev.css\"/><link href=\"/images/favicon.ico\"/>"

/-- C5 counterexample: with `min_block_size = 200` the extraction emits a
`css_links` block of only 133 characters — the fixed CSS-literal scan
(lines 177–184) appends its matches with **no** size check, while the
3+-link-run scan correctly discards the same 133-character span. -/
theorem C5_counterexample :
    (extract_potential_blocks 200 linkC5).map (fun b => (b.type, b.content.length)) =
      [(lc "css_links", 133)] ∧ 133 < 200 := by decide

/-- C5 (amended): every CandidateBlock emitted by the PHP-delimiter scan or
the 3+-link-run scan has content of at least `min_block_size` characters
(for the PHP scan the size test applies to the inner code, so the emitted
wrapped content is 9 characters longer still); a span one character shorter
than the bound is discarded by these scans.  The fixed CSS-literal scan,
however, emits its matches regardless of `min_block_size`. -/
theorem C5_amended (minSize : Nat) (content : Str) (b : RawBlock)
    (hb : b ∈ extract_potential_blocks minSize content) :
    b ∈ cssPatternBlocks content ∨ minSize ≤ b.content.length := by
  unfold extract_potential_blocks at hb
  rcases List.mem_append.1 hb with h | h2
  · rcases List.mem_append.1 h with h1 | h2
    · exact Or.inl h1
    · right
      obtain ⟨m, _, hsome⟩ := List.mem_filterMap.1 h2
      by_cases hle : minSize ≤ m.length
      · rw [if_pos hle] at hsome
        cases Option.some.inj hsome
        exact hle
      · rw [if_neg hle] at hsome
        exact Option.noConfusion hsome
  · right
    obtain ⟨g, _, hsome⟩ := List.mem_filterMap.1 h2
    by_cases hle : minSize ≤ g.length
    · rw [if_pos hle] at hsome
      cases Option.some.inj hsome
      simp only [List.length_append]
      omega
    · rw [if_neg hle] at hsome
      exact Option.noConfusion hsome

/-- The boundary block for the witness: the 133-character link run. -/
def lgC5 : RawBlock := ⟨lc "link_group", linkC5, md5hex linkC5⟩

/-- C5 amended, instantiated at the boundary: with `min_block_size = 133`
the 133-character link run is eligible and satisfies the bound (and by
`C5_counterexample`'s input with 134 it would be discarded). -/
theorem C5_amended_witness :
    lgC5 ∈ extract_potential_blocks 133 linkC5 ∧
    (lgC5 ∈ cssPatternBlocks linkC5 ∨ 133 ≤ lgC5.content.length) :=
  ⟨by decide, C5_amended 133 linkC5 lgC5 (by decide)⟩

/-! ## Claim C7 — the navigation whole-file special case of the fuzzy tier -/

/-- A reference statement for the C7 scenarios. -/
def stmtC7 : Str := includeStatement (lc "includes/navigation_00000000.php")

/-- C7 counterexample: at a file size of **exactly** 1.5× the block size
(`6 = 1.5·4`), with a Navigation block, a navigation-fragment file name and
the normalized-substring condition all satisfied, the fuzzy tier does NOT
replace the whole file — the source's guard is the strict
`len(original_content) < len(block['content']) * 1.5` (line 517), so the
general probing scan runs instead and replaces only a sub-span. -/
theorem C7_counterexample :
    occursIn (normWS (lc "abcd")) (normWS (lc "abcdXY")) = true ∧
    occursIn (lc "navigation") (lowerStr (basename (lc "site/navigation.php"))) = true ∧
    2 * (lc "abcdXY").length = 3 * (lc "abcd").length ∧
    approach4 (lc "navigation") (lc "site/navigation.php") (lc "abcd") stmtC7
        (lc "abcdXY") = some (stmtC7 ++ lc "XY") ∧
    stmtC7 ++ lc "XY" ≠ stmtC7 := by decide

/-- C7 (amended): the whole-file replacement fires exactly under the strict
bound — whenever the normalized block occurs in the normalized file, the
block's type is Navigation, the file's name marks it as a navigation
fragment and the file's size is **strictly less than** 1.5× the block
content's size (`2·|orig| < 3·|content|`), the entire file content is
replaced with the reference statement; equality at exactly 1.5× is
excluded (see the counterexample). -/
theorem C7_amended (bfile content stmt orig : Str)
    (h1 : occursIn (normWS content) (normWS orig) = true)
    (h2 : occursIn (lc "navigation") (lowerStr (basename bfile)) = true)
    (h3 : 2 * orig.length < 3 * content.length) :
    approach4 (lc "navigation") bfile content stmt orig = some stmt := by
  simp only [approach4]
  rw [h1, if_pos rfl, if_pos ⟨trivial, h2, h3⟩]

/-- C7 amended, instantiated strictly below the bound (`10 < 12`). -/
theorem C7_amended_witness :
    (occursIn (normWS (lc "abcd")) (normWS (lc "abcdX")) = true ∧
      occursIn (lc "navigation") (lowerStr (basename (lc "site/navigation.php"))) = true ∧
      2 * (lc "abcdX").length < 3 * (lc "abcd").length) ∧
    approach4 (lc "navigation") (lc "site/navigation.php") (lc "abcd") stmtC7
        (lc "abcdX") = some stmtC7 :=
  ⟨⟨by decide, by decide, by decide⟩,
    C7_amended (lc "site/navigation.php") (lc "abcd") stmtC7 (lc "abcdX")
      (by decide) (by decide) (by decide)⟩

/-! ## Claim C8 — unresolved occurrences are harmless -/

/-- C8: when every tier fails for an occurrence (the chain returns `none`),
processing that occurrence leaves the content map — the in-memory record
and, since every write is persisted immediately, the disk state — exactly
as it was and the replacement count untouched, appends a warning naming the
owning file, and the run simply continues with the remaining occurrences
(no exception: the step function is total). -/
theorem C8 (O : Oracles) (stmt : Str) (acc : ApplyAcc) (blk : Block)
    (rest : List Block)
    (hfail : applyOccurrence O stmt (lookupD acc.fc blk.file []) blk = none) :
    applyMembers O stmt acc (blk :: rest) =
      applyMembers O stmt ⟨acc.fc, acc.repl, acc.warns ++ [blk.file]⟩ rest := by
  simp only [applyMembers, applyMember, hfail]

/-- A concrete occurrence on which every tier fails: a `php_code` block
whose content does not occur (even after whitespace normalization) in the
owning file. -/
def blkC8 : Block :=
  ⟨lc "php_code", lc "<?php aaaaaaaa ?>", md5hex (lc "aaaaaaaa"), lc "site/z.php"⟩

def accC8 : ApplyAcc := ⟨[(lc "site/z.php", lc "hello")], 0, []⟩

def stmtC8 : Str := includeStatement (lc "includes/php_code_00000000.php")

theorem C8_witness :
    applyOccurrence noOracle stmtC8 (lookupD accC8.fc blkC8.file []) blkC8 = none ∧
    applyMembers noOracle stmtC8 accC8 [blkC8] =
      applyMembers noOracle stmtC8 ⟨accC8.fc, accC8.repl, accC8.warns ++ [blkC8.file]⟩ [] :=
  ⟨by decide, C8 noOracle stmtC8 accC8 blkC8 [] (by decide)⟩

/-! ## Claim C9 — the replacement counter counts occurrences -/

/-- Across one cluster's member list the counter grows by at most the number
of occurrences. -/
theorem applyMembers_repl_le (O : Oracles) (stmt : Str) :
    ∀ (ms : List Block) (acc : ApplyAcc),
    (applyMembers O stmt acc ms).repl ≤ acc.repl + ms.length
  | [], acc => by simp [applyMembers]
  | blk :: ms, acc => by
    simp only [applyMembers, List.length_cons]
    have h1 := applyMembers_repl_le O stmt ms (applyMember O stmt acc blk)
    have h2 : (applyMember O stmt acc blk).repl ≤ acc.repl + 1 := by
      unfold applyMember
      cases happ : applyOccurrence O stmt (lookupD acc.fc blk.file []) blk <;> simp
    omega

/-- Across the cluster fold the counter grows by at most the total number of
member occurrences. -/
theorem applyFold_repl_le (O : Oracles) (dir : Str) (incs : List (Str × Str)) :
    ∀ (clusters : List (Str × List Block)) (acc : ApplyAcc),
    (clusters.foldl (applyCluster O dir incs) acc).repl ≤
      acc.repl + (clusters.map (fun cl => cl.2.length)).sum
  | [], acc => by simp
  | cl :: clusters, acc => by
    simp only [List.foldl_cons, List.map_cons, List.sum_cons]
    have h1 : (applyCluster O dir incs acc cl).repl ≤ acc.repl + cl.2.length :=
      applyMembers_repl_le O _ cl.2 acc
    have h2 := applyFold_repl_le O dir incs clusters (applyCluster O dir incs acc cl)
    omega

/-- C9: processing one member occurrence raises the replacement counter by
exactly one when some tier succeeded and by zero otherwise — never by more,
even when the successful tier's `str.replace` removed several verbatim
copies at once — and consequently the total returned by the rewrite pass is
bounded by the number of member occurrences, not by the number of
substituted text spans. -/
theorem C9 :
    (∀ (O : Oracles) (stmt : Str) (acc : ApplyAcc) (blk : Block),
      (applyMember O stmt acc blk).repl = acc.repl + 1 ∨
        (applyMember O stmt acc blk).repl = acc.repl) ∧
    (∀ (O : Oracles) (dir : Str) (incs : List (Str × Str))
        (clusters : List (Str × List Block)) (fc : List (Str × Str)),
      (apply_includes O dir incs clusters fc).repl ≤
        (clusters.map (fun cl => cl.2.length)).sum) := by
  constructor
  · intro O stmt acc blk
    unfold applyMember
    cases happ : applyOccurrence O stmt (lookupD acc.fc blk.file []) blk
    · exact Or.inr rfl
    · exact Or.inl rfl
  · intro O dir incs clusters fc
    have h := applyFold_repl_le O dir incs clusters ⟨fc, 0, []⟩
    simpa [apply_includes] using h

/-! ## Claim C10 — artifacts live under `includes/` and are rescanned -/

/-- A write puts its own entry in the map. -/
theorem updateAssoc_self : ∀ (m : List (Str × Str)) (k v : Str),
    (k, v) ∈ updateAssoc m k v
  | [], k, v => List.mem_singleton.2 rfl
  | e :: rest, k, v => by
    simp only [updateAssoc]
    split
    · exact List.mem_cons_self _ _
    · exact List.mem_cons_of_mem _ (updateAssoc_self rest k v)

/-- A write leaves entries under other keys in place. -/
theorem updateAssoc_keep : ∀ (m : List (Str × Str)) (k v k' v' : Str),
    (k, v) ∈ m → k ≠ k' → (k, v) ∈ updateAssoc m k' v'
  | [], _, _, _, _, h, _ => absurd h (List.not_mem_nil _)
  | e :: rest, k, v, k', v', hm, hne => by
    simp only [updateAssoc]
    split
    · next heq =>
      rcases List.mem_cons.1 hm with rfl | hr
      · exact absurd (by simpa using heq) hne
      · exact List.mem_cons_of_mem _ hr
    · rcases List.mem_cons.1 hm with rfl | hr
      · exact List.mem_cons_self _ _
      · exact List.mem_cons_of_mem _ (updateAssoc_keep rest k v k' v' hr hne)

/-- A key present before a write is present after it (possibly with new
content, on a filename collision). -/
theorem updateAssoc_exists_key (m : List (Str × Str)) (k k' v' : Str)
    (h : ∃ c, (k, c) ∈ m) : ∃ c, (k, c) ∈ updateAssoc m k' v' := by
  obtain ⟨c, hc⟩ := h
  by_cases hk : k = k'
  · subst hk
    exact ⟨v', updateAssoc_self m k v'⟩
  · exact ⟨c, updateAssoc_keep m k c k' v' hc hk⟩

/-- Every artifact path sits directly under `<dir>/includes/` and carries the
`.php` extension. -/
theorem includePath_shape (dir : Str) (b : Block) :
    (dir ++ lc "/includes/").isPrefixOf (includePath dir b) = true ∧
    endsWith (lc ".php") (includePath dir b) = true := by
  constructor
  · apply List.isPrefixOf_iff_prefix.2
    unfold includePath
    exact (((List.prefix_append _ _).trans (List.prefix_append _ _)).trans
      (List.prefix_append _ _)).trans (List.prefix_append _ _)
  · unfold endsWith includePath
    apply List.isSuffixOf_iff_suffix.2
    exact List.suffix_append _ _

/-- Fold invariant of `create_includes`: every recorded artifact mapping
points under `<dir>/includes/`, ends in `.php`, and its path is a key of the
resulting file system. -/
theorem createFold_spec (dir : Str) :
    ∀ (clusters : List (Str × List Block))
      (acc : List (Str × Str) × List (Str × Str)),
    (∀ e ∈ acc.1, ((dir ++ lc "/includes/").isPrefixOf e.2 = true ∧
        endsWith (lc ".php") e.2 = true) ∧ ∃ c, (e.2, c) ∈ acc.2) →
    ∀ e ∈ (clusters.foldl (createStep dir) acc).1,
      ((dir ++ lc "/includes/").isPrefixOf e.2 = true ∧
        endsWith (lc ".php") e.2 = true) ∧
      ∃ c, (e.2, c) ∈ (clusters.foldl (createStep dir) acc).2
  | [], acc, hinv, e, he => hinv e he
  | cl :: clusters, acc, hinv, e, he => by
    simp only [List.foldl_cons] at he ⊢
    refine createFold_spec dir clusters (createStep dir acc cl) ?_ e he
    intro e' he'
    cases hcl : cl.2 with
    | nil =>
      simp only [createStep, hcl] at he' ⊢
      exact hinv e' he'
    | cons b tl =>
      simp only [createStep, hcl] at he' ⊢
      rcases List.mem_append.1 he' with hin | hnew
      · obtain ⟨hsh, hex⟩ := hinv e' hin
        exact ⟨hsh, updateAssoc_exists_key _ _ _ _ hex⟩
      · have heq : e' = (cl.1, includePath dir b) := List.mem_singleton.1 hnew
        subst heq
        exact ⟨includePath_shape dir b, b.content, updateAssoc_self _ _ _⟩

/-- C10: every IncludeArtifact is written under the fixed `includes`
subdirectory of the scanned root with a `.php` filename; the recursive
`*.php` directory scan therefore picks the artifact up again, and on a
subsequent run each of its extracted blocks appears (attributed to the
artifact as its owning PageFile) in the block list that feeds clustering. -/
theorem C10 (dir : Str) (clusters : List (Str × List Block))
    (fs : List (Str × Str)) (e : Str × Str)
    (he : e ∈ (create_includes dir clusters fs).1) :
    ((dir ++ lc "/includes/").isPrefixOf e.2 = true ∧
      endsWith (lc ".php") e.2 = true) ∧
    ∃ c, (e.2, c) ∈ scanDirectory (create_includes dir clusters fs).2 ∧
      ∀ (m : Nat) (rb : RawBlock), rb ∈ extract_potential_blocks m c →
        (⟨rb.type, rb.content, rb.hash, e.2⟩ : Block) ∈
          allBlocks m (scanDirectory (create_includes dir clusters fs).2) := by
  unfold create_includes at he ⊢
  obtain ⟨hshape, c, hc⟩ := createFold_spec dir clusters ([], fs) (by simp) e he
  have hscan : (e.2, c) ∈ scanDirectory (clusters.foldl (createStep dir) ([], fs)).2 :=
    List.mem_filter.2 ⟨hc, hshape.2⟩
  refine ⟨hshape, c, hscan, ?_⟩
  intro m rb hrb
  unfold allBlocks
  exact List.mem_flatMap.2 ⟨(e.2, c), hscan, List.mem_map.2 ⟨rb, hrb, rfl⟩⟩

/-- The concrete single-cluster instance for the C10 witness. -/
def blkC10 : Block :=
  ⟨lc "php_code", lc "<?php aaaaaaaa ?>", md5hex (lc "aaaaaaaa"), lc "site/a.php"⟩

def artC10 : Str × Str := (lc "php_code_0", includePath (lc "site") blkC10)

theorem C10_witness :
    artC10 ∈ (create_includes (lc "site") [(lc "php_code_0", [blkC10])] []).1 ∧
    (((lc "site" ++ lc "/includes/").isPrefixOf artC10.2 = true ∧
        endsWith (lc ".php") artC10.2 = true) ∧
      ∃ c, (artC10.2, c) ∈
          scanDirectory (create_includes (lc "site") [(lc "php_code_0", [blkC10])] []).2 ∧
        ∀ (m : Nat) (rb : RawBlock), rb ∈ extract_potential_blocks m c →
          (⟨rb.type, rb.content, rb.hash, artC10.2⟩ : Block) ∈
            allBlocks m
              (scanDirectory (create_includes (lc "site") [(lc "php_code_0", [blkC10])] []).2)) :=
  ⟨by decide, C10 (lc "site") [(lc "php_code_0", [blkC10])] [] artC10 (by decide)⟩
